import Mathlib

/-!
# Verification of `packages/gatsby/src/redux/persist.ts`

Shallow embedding of the chunked redux-state persistence module.

Modelling decisions, mirroring the source:

* `v8.serialize` / `v8.deserialize` are an external codec treated as a
  black box (a mutually inverse pair).  Files in the model therefore hold
  the decoded values directly; the encoded byte *length* of an entry,
  which the chunk-size heuristic measures, is abstracted as a function
  `size : Entry → Nat` (standing for `v8.serialize(e).length`).
* A JS `Map` is an insertion-ordered association list; `new Map(pairs)`
  lets a later pair for a duplicate key overwrite the earlier one
  (`mapFromList` below).  `[...map.entries()]` is the list itself.
* The filesystem is a record: the core file (`redux.state`) and the set
  of chunk files (`redux.node.state_<i>`) keyed by their integer suffix.
  `globSync(prefix + "*")` returns exactly the chunk files; their
  enumeration order only matters through `new Map`, which is
  order-insensitive on key-unique data, so the model reads chunks in
  stored (index) order.
* The `for` loops in `guessSafeChunkSize` and in the chunk-writing code
  can fail to terminate in JS (stride 0, or `chunks = Infinity`), so
  the embedding is fuel-indexed: `none` models divergence.
* JS number edge cases reached by the code are modelled explicitly:
  `x / 0 = Infinity` for `x > 0` (`JsNum.inf`), `E / Infinity = 0`,
  and `Math.ceil(0 / 0) = NaN` comparing false in `i < NaN`.
* `writeToCache` mutates its argument (`contents.nodes = undefined`,
  later `contents.nodes = map`); the model returns the final state of
  the caller's object, plus the filesystem and a trace of the externally
  visible steps in program order.
-/

namespace Persist

/-- Record identifiers (`string` keys of the nodes `Map`). -/
abbrev Key := Nat

/-- `IReduxNode`: an opaque codec-serializable value. -/
abbrev RecordV := Nat

/-- One `(key, node)` pair as produced by `map.entries()`. -/
abbrev Entry := Key × RecordV

/-- `ICachedReduxState`: the `nodes` Map (possibly `undefined`) plus the
rest of the store, opaque to this module. -/
structure ICachedReduxState where
  nodes : Option (List Entry)
  rest : Nat
deriving DecidableEq

/-- The on-disk state: the core file `redux.state` (if present) and the
chunk files `redux.node.state_<i>`, keyed by suffix `i`. -/
structure FS where
  core : Option ICachedReduxState
  chunks : List (Nat × List Entry)
deriving DecidableEq

/-- Externally visible steps of `writeToCache`, in program order. -/
inductive Event where
  | unlink : Nat → Event
  | detach : Event
  | writeCore : Event
  | reattach : Event
  | estimate : Nat → Event
  | writeChunk : Nat → Event
deriving DecidableEq

/-- A JS number as produced on the chunk-size path: a (floored)
non-negative integer or `Infinity` (from `x / 0`, `x > 0`). -/
inductive JsNum where
  | fin : Nat → JsNum
  | inf : JsNum
deriving DecidableEq

/-- `150 * 1024 * 1024 * 1024`, the constant in `guessSafeChunkSize`
(the comment above it says "Use 1.5gb as the target ceiling"). -/
def TARGET_BYTES : Nat := 150 * 1024 * 1024 * 1024

/-- `Math.ceil(a / b)` for integers `a ≥ 0`, `b ≥ 1`. -/
def ceilDivNat (a b : Nat) : Nat := (a + b - 1) / b

/-- The sampling loop of `guessSafeChunkSize`:
`for (let i = 0; i < valueCount; i += stride) maxSize = max(sz[i], maxSize)`
with `stride = Math.floor(valueCount / 11)`.  Fuel-indexed: `none`
models non-termination (`stride = 0` with `0 < valueCount` never
advances `i`). -/
def sampleLoop (sz : List Nat) (stride : Nat) : Nat → Nat → Nat → Option Nat
  | 0, i, maxSize =>
      if i < sz.length then none else some maxSize
  | fuel + 1, i, maxSize =>
      if i < sz.length then
        sampleLoop sz stride fuel (i + stride) (Nat.max (sz.getD i 0) maxSize)
      else some maxSize

/-- `guessSafeChunkSize(values)`: sample sizes with stride
`valueCount / 11`, return `Math.floor(TARGET_BYTES / maxSize)`.
`maxSize = 0` (empty input) gives `Infinity` in JS. -/
def guessSafeChunkSize (size : Entry → Nat) (values : List Entry) (fuel : Nat) :
    Option JsNum :=
  let valueCount := values.length
  match sampleLoop (values.map size) (valueCount / 11) fuel 0 0 with
  | none => none
  | some maxSize =>
      some (if maxSize = 0 then JsNum.inf else JsNum.fin (TARGET_BYTES / maxSize))

/-- Number of iterations of `for (let i = 0; i < chunks; ++i)` where
`chunks = Math.ceil(values.length / chunkSize)`.  `chunkSize = Infinity`
gives `0` chunks; `chunkSize = 0` gives `Infinity` chunks (divergence,
`none`) unless `E = 0`, where `0 / 0 = NaN` and `i < NaN` is false. -/
def jsChunkCount (E : Nat) : JsNum → Option Nat
  | JsNum.inf => some 0
  | JsNum.fin 0 => if E = 0 then some 0 else none
  | JsNum.fin (k + 1) => some (ceilDivNat E (k + 1))

/-- The entry width used by `values.slice(i * chunkSize, i * chunkSize + chunkSize)`
when the chunk count is positive (then the chunk size is a positive integer). -/
def jsWidth : JsNum → Nat
  | JsNum.inf => 0
  | JsNum.fin k => k

/-- JS `Map.set` on an association list: overwrite in place if the key
is present, else append. -/
def mapInsert (m : List Entry) (k : Key) (v : RecordV) : List Entry :=
  if m.any (fun p => p.1 == k) then
    m.map (fun p => if p.1 = k then (k, v) else p)
  else m ++ [(k, v)]

/-- `new Map(pairs)`: insert the pairs left to right (later pairs for a
duplicate key overwrite earlier ones). -/
def mapFromList (l : List Entry) : List Entry :=
  l.foldl (fun m p => mapInsert m p.1 p.2) []

/-- `map.get k` on the association-list model. -/
def mlookup : List Entry → Key → Option RecordV
  | [], _ => none
  | p :: m, k => if p.1 = k then some p.2 else mlookup m k

/-- `readFromCache()`: deserialize the core file, glob the chunk files,
flatten their entry lists, and if any chunk file exists replace
`obj.nodes` with `new Map(nodes)`.  `none` is the FileNotFound error
when the core file is missing. -/
def readFromCache (fs : FS) : Option ICachedReduxState :=
  match fs.core with
  | none => none
  | some obj =>
      let chunks := fs.chunks.map (fun c => c.2)
      let nodes : List Entry := chunks.flatten
      some (if chunks.length ≠ 0 then { obj with nodes := some (mapFromList nodes) } else obj)

/-- `writeToCache(contents)`:
1. `globSync(prefix + "*").forEach(unlinkSync)` — delete old chunk files;
2. `const map = contents.nodes; contents.nodes = undefined` — detach;
3. `writeFileSync(file(), v8.serialize(contents))` — write the core file;
4. `contents.nodes = map` — reattach;
5. `if (map) { ... }` — estimate the chunk size and write the chunks
   `values.slice(i * chunkSize, i * chunkSize + chunkSize)` to
   `prefix + i`.
Returns the final state of the caller's object, the filesystem, and the
event trace; `none` models divergence inside step 5. -/
def writeToCache (size : Entry → Nat) (contents : ICachedReduxState) (fs : FS)
    (fuel : Nat) : Option (ICachedReduxState × FS × List Event) :=
  let trUnlink := fs.chunks.map (fun c => Event.unlink c.1)
  let fs1 : FS := { fs with chunks := [] }
  let detached : ICachedReduxState := { contents with nodes := none }
  let fs2 : FS := { fs1 with core := some detached }
  let tr := trUnlink ++ [Event.detach, Event.writeCore, Event.reattach]
  match contents.nodes with
  | none => some ({ detached with nodes := none }, fs2, tr)
  | some m =>
      let restored : ICachedReduxState := { detached with nodes := some m }
      let values : List Entry := m
      match guessSafeChunkSize size values fuel with
      | none => none
      | some cs =>
          match jsChunkCount values.length cs with
          | none => none
          | some nChunks =>
              let w := jsWidth cs
              let chunkFiles := (List.range nChunks).map
                (fun i => (i, (values.drop (i * w)).take w))
              some (restored, { fs2 with chunks := chunkFiles },
                tr ++ [Event.estimate values.length]
                   ++ (List.range nChunks).map Event.writeChunk)

/-! ## Derived notions used by the verification -/

def isWriteChunk : Event → Bool
  | Event.writeChunk _ => true
  | _ => false

/-- The ordering claimed by the spec: every chunk-file write precedes
the reattach step. -/
def chunkWritesPrecedeReattach (tr : List Event) : Prop :=
  ∀ i, i < tr.length → ∀ j, j < tr.length →
    isWriteChunk (tr.getD i Event.detach) = true →
    tr.getD j Event.detach = Event.reattach → i < j

instance (tr : List Event) : Decidable (chunkWritesPrecedeReattach tr) := by
  unfold chunkWritesPrecedeReattach
  infer_instance

/-- Two optional `records` maps are equal as mappings: same value (or
none) for every key.  An absent map and an empty map both denote the
empty mapping. -/
def recordsEquiv (a b : Option (List Entry)) : Prop :=
  ∀ k, mlookup (a.getD []) k = mlookup (b.getD []) k

/-- A state round-trips through the cache directory: `writeToCache`
terminates, and `readFromCache` of the resulting directory yields a
state whose `records` mapping equals the written one. -/
def roundTrips (size : Entry → Nat) (st : ICachedReduxState) (fs : FS) : Prop :=
  ∃ fuel st2 fs2 tr rd,
    writeToCache size st fs fuel = some (st2, fs2, tr) ∧
    readFromCache fs2 = some rd ∧
    recordsEquiv rd.nodes st.nodes

/-- The filesystem produced by writing eleven `(j, j)` entries at an
estimated chunk size of two. -/
def chunkedSixFS : FS :=
  { core := some { nodes := none, rest := 0 },
    chunks := (List.range 6).map
      (fun i => (i, (((List.range 11).map (fun j => (j, j))).drop (i * 2)).take 2)) }

/-- A filesystem whose two chunk files carry a duplicate key `1`. -/
def dupChunksFS : FS :=
  { core := some { nodes := none, rest := 0 },
    chunks := [(0, [(1, 10), (2, 20)]), (1, [(1, 30)])] }

/-! ## Lemmas about the sampling loop -/

/-- With a zero stride and at least one remaining index, the sampling
loop never terminates, whatever the fuel. -/
theorem sampleLoop_stride_zero (sz : List Nat) :
    ∀ (fuel i maxSize : Nat), i < sz.length →
      sampleLoop sz 0 fuel i maxSize = none := by
  intro fuel
  induction fuel with
  | zero => intro i maxSize h; simp [sampleLoop, h]
  | succ f ih =>
      intro i maxSize h
      simp only [sampleLoop, if_pos h]
      simpa using ih i _ h

/-- With a positive stride the loop terminates once the fuel covers the
remaining indices. -/
theorem sampleLoop_terminates (sz : List Nat) (stride : Nat) (hs : 0 < stride) :
    ∀ (fuel i maxSize : Nat), sz.length ≤ i + fuel →
      ∃ r, sampleLoop sz stride fuel i maxSize = some r := by
  intro fuel
  induction fuel with
  | zero =>
      intro i maxSize h
      have : ¬ i < sz.length := by omega
      exact ⟨maxSize, by simp [sampleLoop, this]⟩
  | succ f ih =>
      intro i maxSize h
      by_cases hi : i < sz.length
      · simp only [sampleLoop, if_pos hi]
        exact ih (i + stride) _ (by omega)
      · exact ⟨maxSize, by simp [sampleLoop, hi]⟩

/-- The loop's result is at least its accumulator. -/
theorem sampleLoop_ge (sz : List Nat) (stride : Nat) :
    ∀ (fuel i maxSize r : Nat),
      sampleLoop sz stride fuel i maxSize = some r → maxSize ≤ r := by
  intro fuel
  induction fuel with
  | zero =>
      intro i maxSize r h
      by_cases hi : i < sz.length
      · simp [sampleLoop, hi] at h
      · simp [sampleLoop, hi] at h; omega
  | succ f ih =>
      intro i maxSize r h
      by_cases hi : i < sz.length
      · simp only [sampleLoop, if_pos hi] at h
        have h1 := ih _ _ _ h
        have h2 : maxSize ≤ Nat.max (sz.getD i 0) maxSize := Nat.le_max_right _ _
        omega
      · simp [sampleLoop, hi] at h; omega

/-- The loop's result is bounded by any bound on the list elements and
the accumulator. -/
theorem sampleLoop_le (sz : List Nat) (stride B : Nat) (hB : ∀ x ∈ sz, x ≤ B) :
    ∀ (fuel i maxSize r : Nat), maxSize ≤ B →
      sampleLoop sz stride fuel i maxSize = some r → r ≤ B := by
  intro fuel
  induction fuel with
  | zero =>
      intro i maxSize r hm h
      by_cases hi : i < sz.length
      · simp [sampleLoop, hi] at h
      · simp [sampleLoop, hi] at h; omega
  | succ f ih =>
      intro i maxSize r hm h
      by_cases hi : i < sz.length
      · simp only [sampleLoop, if_pos hi] at h
        refine ih _ _ _ ?_ h
        have hmem : sz.getD i 0 ∈ sz := by
          rw [List.getD_eq_getElem?_getD, List.getElem?_eq_getElem hi]
          exact List.getElem_mem hi
        exact Nat.max_le.mpr ⟨hB _ hmem, hm⟩
      · simp [sampleLoop, hi] at h; omega

/-- If the first index is sampled (positive fuel, non-empty list), the
result is at least the first element's size. -/
theorem sampleLoop_ge_head (sz : List Nat) (stride : Nat) (f r : Nat)
    (h0 : 0 < sz.length)
    (h : sampleLoop sz stride (f + 1) 0 0 = some r) : sz.getD 0 0 ≤ r := by
  simp only [sampleLoop, if_pos h0] at h
  have h1 := sampleLoop_ge sz stride f _ _ _ h
  have h2 : sz.getD 0 0 ≤ Nat.max (sz.getD 0 0) 0 := Nat.le_max_left _ _
  omega

/-! ## Lemmas about `ceilDivNat` and slicing -/

theorem ceilDivNat_zero (c : Nat) (hc : 0 < c) : ceilDivNat 0 c = 0 := by
  unfold ceilDivNat
  exact Nat.div_eq_of_lt (by omega)

theorem ceilDivNat_pos (E c : Nat) (hc : 0 < c) (hE : 0 < E) :
    0 < ceilDivNat E c := by
  unfold ceilDivNat
  exact Nat.div_pos (by omega) hc

/-- Peeling one chunk off the ceiling division. -/
theorem ceilDivNat_succ (E c : Nat) (hc : 0 < c) (hE : 0 < E) :
    ceilDivNat E c = ceilDivNat (E - c) c + 1 := by
  unfold ceilDivNat
  rcases le_or_lt E c with hEc | hEc
  · have h1 : E + c - 1 = (E - 1) + c := by omega
    have h2 : E - c = 0 := by omega
    rw [h1, Nat.add_div_right _ hc, Nat.div_eq_of_lt (show E - 1 < c by omega), h2]
    rw [Nat.div_eq_of_lt (show 0 + c - 1 < c by omega)]
  · have h1 : E + c - 1 = ((E - c) + c - 1) + c := by omega
    rw [h1, Nat.add_div_right _ hc]

/-- Every chunk index addresses a strictly-inside offset of the entry
list: `i < ⌈E / c⌉` implies `i * c < E`. -/
theorem mul_lt_of_lt_ceilDivNat (i E c : Nat) (hc : 0 < c)
    (hi : i < ceilDivNat E c) : i * c < E := by
  unfold ceilDivNat at hi
  have h1 : i + 1 ≤ (E + c - 1) / c := hi
  have h2 : (i + 1) * c ≤ E + c - 1 := (Nat.le_div_iff_mul_le hc).mp h1
  have h3 : i * c + c ≤ E + c - 1 := by
    calc i * c + c = (i + 1) * c := by ring
    _ ≤ E + c - 1 := h2
  omega

/-- Concatenating the slices `values.slice(i * c, i * c + c)` for
`i = 0 .. ceil(E / c) - 1` restores the original list. -/
theorem flatten_chunks (c : Nat) (hc : 0 < c) :
    ∀ (n : Nat) (l : List Entry), l.length ≤ n →
      ((List.range (ceilDivNat l.length c)).map
        (fun i => ((l.drop (i * c)).take c))).flatten = l := by
  intro n
  induction n with
  | zero =>
      intro l hl
      have hnil : l = [] := List.length_eq_zero.mp (Nat.le_zero.mp hl)
      subst hnil
      simp [ceilDivNat_zero c hc]
  | succ n ih =>
      intro l hl
      cases l with
      | nil => simp [ceilDivNat_zero c hc]
      | cons a l' =>
          have hlen : 0 < (a :: l').length := by simp
          rw [ceilDivNat_succ _ c hc hlen, List.range_succ_eq_map]
          rw [List.map_cons, List.map_map, List.flatten_cons]
          have hfun : ((fun i => (((a :: l').drop (i * c)).take c)) ∘ Nat.succ)
              = fun i => ((((a :: l').drop c).drop (i * c)).take c) := by
            funext i
            simp only [Function.comp_apply]
            have h1 : Nat.succ i * c = i * c + c := Nat.succ_mul i c
            rw [h1, List.drop_drop, Nat.add_comm (i * c) c]
          have hlen' : ((a :: l').drop c).length = (a :: l').length - c :=
            List.length_drop c (a :: l')
          rw [hfun, ← hlen']
          have ihl : ((List.range (ceilDivNat ((a :: l').drop c).length c)).map
              (fun i => ((((a :: l').drop c).drop (i * c)).take c))).flatten
              = (a :: l').drop c := by
            apply ih
            rw [hlen']
            simp only [List.length_cons] at hl ⊢
            omega
          rw [ihl]
          simp

/-! ## Lemmas about the `Map` model -/

/-- Inserting all pairs of `l` into a map `m` whose keys stay disjoint
from the new ones just appends. -/
theorem foldl_mapInsert_nodup :
    ∀ (l m : List Entry), ((m ++ l).map Prod.fst).Nodup →
      l.foldl (fun m p => mapInsert m p.1 p.2) m = m ++ l := by
  intro l
  induction l with
  | nil => intro m _; simp
  | cons p l' ih =>
      intro m hnd
      have hk : p.1 ∉ m.map Prod.fst := by
        intro hmem
        have h1 : p.1 ∈ (p :: l').map Prod.fst := by simp
        rw [List.map_append, List.nodup_append] at hnd
        exact hnd.2.2 hmem h1
      have hins : mapInsert m p.1 p.2 = m ++ [p] := by
        unfold mapInsert
        have hany : m.any (fun q => q.1 == p.1) = false := by
          rw [List.any_eq_false]
          intro q hq
          simp only [beq_iff_eq]
          intro hcontra
          exact hk (hcontra ▸ List.mem_map_of_mem Prod.fst hq)
        rw [hany]
        simp
      have hrearr : m ++ p :: l' = (m ++ [p]) ++ l' := by simp
      rw [List.foldl_cons, hins, ih (m ++ [p]) (by rw [← hrearr]; exact hnd), hrearr]

/-- `new Map(pairs)` on key-unique pairs is the pairs themselves. -/
theorem mapFromList_of_nodupKeys (l : List Entry)
    (h : (l.map Prod.fst).Nodup) : mapFromList l = l := by
  have := foldl_mapInsert_nodup l [] (by simpa using h)
  simpa [mapFromList] using this

theorem mapFromList_concat (l : List Entry) (p : Entry) :
    mapFromList (l ++ [p]) = mapInsert (mapFromList l) p.1 p.2 := by
  simp [mapFromList, List.foldl_append]

theorem mlookup_map_replace (m : List Entry) (k : Key) (v : RecordV)
    (h : m.any (fun p => p.1 == k) = true) :
    mlookup (m.map (fun p => if p.1 = k then (k, v) else p)) k = some v := by
  induction m with
  | nil => simp at h
  | cons q m' ih =>
      by_cases hq : q.1 = k
      · simp [mlookup, hq]
      · have hqb : (q.1 == k) = false := beq_eq_false_iff_ne.mpr hq
        have h' : m'.any (fun p => p.1 == k) = true := by
          rw [List.any_cons, hqb] at h
          simpa using h
        simp only [List.map_cons, if_neg hq]
        rw [show mlookup (q :: m'.map fun p => if p.1 = k then (k, v) else p) k
            = mlookup (m'.map fun p => if p.1 = k then (k, v) else p) k from by
          simp [mlookup, hq]]
        exact ih h'

theorem mlookup_append_missing (m : List Entry) (k : Key) (v : RecordV)
    (h : m.any (fun p => p.1 == k) = false) :
    mlookup (m ++ [(k, v)]) k = some v := by
  induction m with
  | nil => simp [mlookup]
  | cons q m' ih =>
      simp only [List.any_cons, Bool.or_eq_false_iff, beq_eq_false_iff_ne] at h
      simp only [List.cons_append]
      rw [show mlookup ((q :: (m' ++ [(k, v)]))) k = mlookup (m' ++ [(k, v)]) k from by
        simp [mlookup, h.1]]
      refine ih ?_
      rw [List.any_eq_false]
      intro q' hq'
      simp only [beq_iff_eq]
      exact fun hc => (List.any_eq_false.mp h.2 q' hq') (by simpa using hc)

/-- `map.set k v` makes `k` map to `v`. -/
theorem mlookup_mapInsert_self (m : List Entry) (k : Key) (v : RecordV) :
    mlookup (mapInsert m k v) k = some v := by
  unfold mapInsert
  by_cases hany : m.any (fun p => p.1 == k) = true
  · simp only [hany, if_true]
    exact mlookup_map_replace m k v hany
  · simp only [hany, if_false]
    exact mlookup_append_missing m k v (Bool.eq_false_iff.mpr hany)

theorem mlookup_map_replace_ne (m : List Entry) (k k' : Key) (v : RecordV)
    (hne : k' ≠ k) :
    mlookup (m.map (fun p => if p.1 = k' then (k', v) else p)) k = mlookup m k := by
  induction m with
  | nil => simp
  | cons q m' ih =>
      by_cases hq : q.1 = k'
      · have hqk : ¬ q.1 = k := by rw [hq]; exact hne
        have hkk : ¬ k' = k := hne
        simp only [List.map_cons, if_pos hq, mlookup, hkk, if_neg, ite_false, hqk]
        exact ih
      · simp only [List.map_cons, if_neg hq, mlookup]
        by_cases hqk : q.1 = k
        · simp [hqk]
        · simp only [hqk, if_neg, ite_false]
          exact ih

theorem mlookup_append_ne (m : List Entry) (k k' : Key) (v : RecordV)
    (hne : k' ≠ k) : mlookup (m ++ [(k', v)]) k = mlookup m k := by
  induction m with
  | nil => simp [mlookup, hne]
  | cons q m' ih =>
      simp only [List.cons_append, mlookup]
      by_cases hqk : q.1 = k
      · simp [hqk]
      · simp only [hqk, if_neg, ite_false]
        exact ih

/-- `map.set k' v` does not change the binding of another key `k`. -/
theorem mlookup_mapInsert_ne (m : List Entry) (k k' : Key) (v : RecordV)
    (hne : k' ≠ k) : mlookup (mapInsert m k' v) k = mlookup m k := by
  unfold mapInsert
  by_cases hany : m.any (fun p => p.1 == k') = true
  · simp only [hany, if_true]
    exact mlookup_map_replace_ne m k k' v hne
  · simp only [hany, if_false]
    exact mlookup_append_ne m k k' v hne

/-- Later entries win: if the flattened chunk entries decompose as
`pre ++ (k, v) :: post` with no later binding of `k` in `post`, the
rebuilt map sends `k` to `v`. -/
theorem mlookup_mapFromList_later (pre post : List Entry) (k : Key) (v : RecordV)
    (hpost : ∀ q ∈ post, q.1 ≠ k) :
    mlookup (mapFromList (pre ++ (k, v) :: post)) k = some v := by
  induction post using List.reverseRecOn with
  | nil => rw [mapFromList_concat]; exact mlookup_mapInsert_self _ k v
  | append_singleton post' q ih =>
      have hq : q.1 ≠ k := hpost q (by simp)
      have hrearr : pre ++ (k, v) :: (post' ++ [q])
          = (pre ++ (k, v) :: post') ++ [q] := by simp
      rw [hrearr, mapFromList_concat, mlookup_mapInsert_ne _ _ _ _ hq]
      exact ih (fun r hr => hpost r (by simp [hr]))

/-! ## Shape of `writeToCache` on its branches -/

/-- The loop returns immediately when the start index is out of range. -/
theorem sampleLoop_done (sz : List Nat) (stride fuel i maxSize : Nat)
    (h : ¬ i < sz.length) : sampleLoop sz stride fuel i maxSize = some maxSize := by
  cases fuel <;> simp [sampleLoop, h]

/-- On an empty entry list the estimator runs zero iterations and
returns the JS `Infinity` (`150 GiB / 0`). -/
theorem guessSafeChunkSize_nil (size : Entry → Nat) (fuel : Nat) :
    guessSafeChunkSize size [] fuel = some JsNum.inf := by
  simp only [guessSafeChunkSize]
  rw [sampleLoop_done _ _ _ _ _ (by simp)]
  simp

/-- For `1 ≤ valueCount ≤ 10` the stride `Math.floor(valueCount / 11)`
is `0`, the loop index never advances, and the estimator never
returns, whatever the fuel. -/
theorem guessSafeChunkSize_diverges (size : Entry → Nat) (values : List Entry)
    (h1 : 0 < values.length) (h2 : values.length < 11) :
    ∀ fuel, guessSafeChunkSize size values fuel = none := by
  intro fuel
  have hstride : values.length / 11 = 0 := Nat.div_eq_of_lt h2
  have hz := sampleLoop_stride_zero (values.map size) fuel 0 0 (by simpa using h1)
  simp only [guessSafeChunkSize, hstride, hz]

/-- A state with between 1 and 10 records makes `writeToCache` loop
forever inside `guessSafeChunkSize`. -/
theorem writeToCache_diverges_small (size : Entry → Nat)
    (st : ICachedReduxState) (fs : FS) (values : List Entry)
    (hn : st.nodes = some values) (h1 : 0 < values.length)
    (h2 : values.length < 11) :
    ∀ fuel, writeToCache size st fs fuel = none := by
  intro fuel
  simp only [writeToCache, hn, guessSafeChunkSize_diverges size values h1 h2 fuel]

/-- `writeToCache` on a state with no `nodes` map: the core file is
written without records, no chunk file is written, no estimate is made. -/
theorem writeToCache_none_shape (size : Entry → Nat)
    (st : ICachedReduxState) (fs : FS) (fuel : Nat) (hn : st.nodes = none) :
    writeToCache size st fs fuel = some
      ({ nodes := none, rest := st.rest },
       { core := some { nodes := none, rest := st.rest }, chunks := [] },
       fs.chunks.map (fun ch => Event.unlink ch.1)
         ++ [Event.detach, Event.writeCore, Event.reattach]) := by
  simp [writeToCache, hn]

/-- `writeToCache` on a state with an empty `nodes` map: `if (map)` is
still truthy, the estimator is invoked on zero entries, the division by
the zero maximum yields `Infinity`, and zero chunk files are written. -/
theorem writeToCache_empty_shape (size : Entry → Nat)
    (st : ICachedReduxState) (fs : FS) (fuel : Nat) (hn : st.nodes = some []) :
    writeToCache size st fs fuel = some
      ({ nodes := some [], rest := st.rest },
       { core := some { nodes := none, rest := st.rest }, chunks := [] },
       fs.chunks.map (fun ch => Event.unlink ch.1)
         ++ [Event.detach, Event.writeCore, Event.reattach]
         ++ [Event.estimate 0]) := by
  simp [writeToCache, hn, guessSafeChunkSize_nil, jsChunkCount]

/-- `writeToCache` when the estimator returns a positive finite chunk
size `c`: the chunk files are the `c`-wide slices, indexed `0 ..
ceil(E / c) - 1`. -/
theorem writeToCache_shape (size : Entry → Nat) (st : ICachedReduxState)
    (fs : FS) (fuel : Nat) (values : List Entry) (c : Nat)
    (hn : st.nodes = some values)
    (hg : guessSafeChunkSize size values fuel = some (JsNum.fin c))
    (hc : 0 < c) :
    writeToCache size st fs fuel = some
      ({ nodes := some values, rest := st.rest },
       { core := some { nodes := none, rest := st.rest },
         chunks := (List.range (ceilDivNat values.length c)).map
           (fun i => (i, ((values.drop (i * c)).take c))) },
       fs.chunks.map (fun ch => Event.unlink ch.1)
         ++ [Event.detach, Event.writeCore, Event.reattach]
         ++ [Event.estimate values.length]
         ++ (List.range (ceilDivNat values.length c)).map Event.writeChunk) := by
  cases c with
  | zero => exact absurd hc (by omega)
  | succ k =>
      simp [writeToCache, hn, hg, jsChunkCount, jsWidth]

/-- The estimator on at least 11 entries whose serialized sizes are in
`[1, TARGET_BYTES]` terminates (with fuel `valueCount + 1`) and returns
`⌊TARGET_BYTES / maxSize⌋` for a sampled maximum in `[1, TARGET_BYTES]`. -/
theorem guessSafeChunkSize_spec (size : Entry → Nat) (values : List Entry)
    (h11 : 11 ≤ values.length)
    (hbl : ∀ e ∈ values, 1 ≤ size e)
    (hbu : ∀ e ∈ values, size e ≤ TARGET_BYTES) :
    ∃ m, guessSafeChunkSize size values (values.length + 1)
        = some (JsNum.fin (TARGET_BYTES / m)) ∧ 1 ≤ m ∧ m ≤ TARGET_BYTES := by
  have hlen : (values.map size).length = values.length := List.length_map _ _
  have hstride : 0 < values.length / 11 :=
    (Nat.one_le_div_iff (by omega)).mpr h11
  obtain ⟨r, hr⟩ := sampleLoop_terminates (values.map size) (values.length / 11)
    hstride (values.length + 1) 0 0 (by omega)
  have hpos : 0 < values.length := by omega
  have hhead : 1 ≤ (values.map size).getD 0 0 := by
    have hmem : (values.map size).getD 0 0 ∈ values.map size := by
      have h0 : 0 < (values.map size).length := by omega
      rw [List.getD_eq_getElem?_getD, List.getElem?_eq_getElem h0]
      exact List.getElem_mem h0
    obtain ⟨e, he, heq⟩ := List.mem_map.mp hmem
    exact heq ▸ hbl e he
  have hr1 : 1 ≤ r := by
    have := sampleLoop_ge_head (values.map size) (values.length / 11)
      values.length r (by omega) hr
    omega
  have hrT : r ≤ TARGET_BYTES := by
    refine sampleLoop_le (values.map size) _ TARGET_BYTES ?_ _ _ _ _ (by omega) hr
    intro x hx
    obtain ⟨e, he, heq⟩ := List.mem_map.mp hx
    exact heq ▸ hbu e he
  refine ⟨r, ?_, hr1, hrT⟩
  have hne : ¬ r = 0 := by omega
  simp only [guessSafeChunkSize]
  rw [hr]
  simp [hne]

/-! ## Shape of `readFromCache` -/

/-- With no chunk file on disk, `readFromCache` returns exactly what the
core file encoded (`obj.nodes` is not touched). -/
theorem readFromCache_no_chunks (fs : FS) (obj : ICachedReduxState)
    (hc : fs.core = some obj) (hch : fs.chunks = []) :
    readFromCache fs = some obj := by
  simp [readFromCache, hc, hch]

/-- With at least one chunk file, `readFromCache` rebuilds `obj.nodes`
as `new Map` of the concatenation of all chunk contents. -/
theorem readFromCache_chunks (fs : FS) (obj : ICachedReduxState)
    (hc : fs.core = some obj) (hch : fs.chunks ≠ []) :
    readFromCache fs = some { obj with
      nodes := some (mapFromList ((fs.chunks.map (fun ch => ch.2)).flatten)) } := by
  have hlen : (fs.chunks.map (fun ch => ch.2)).length ≠ 0 := by
    simpa [List.length_eq_zero] using hch
  simp only [readFromCache, hc]
  rw [if_pos hlen]

/-- Claim C1 (counterexample): the claim includes `N = 1`, but for a
state with exactly one record the stride `Math.floor(1 / 11) = 0` makes
`guessSafeChunkSize` loop forever, so `writeToCache` never returns and
write-then-read cannot reproduce the mapping. -/
theorem c1_single_record_does_not_round_trip :
    ¬ roundTrips (fun _ => 1) { nodes := some [(0, 0)], rest := 0 }
      { core := none, chunks := [] } := by
  rintro ⟨fuel, st2, fs2, tr, rd, hw, -, -⟩
  rw [writeToCache_diverges_small (fun _ => 1) _ _ [(0, 0)] rfl (by simp)
    (by simp) fuel] at hw
  exact Option.noConfusion hw

/-- Claim C1 (amended): write-then-read reproduces the `records`
mapping for an absent map, an empty map, and any key-unique map of at
least 11 entries whose serialized entry sizes lie in
`[1, TARGET_BYTES]`; for 1-10 entries the write diverges, so those
sizes are excluded. -/
theorem c1_round_trip (size : Entry → Nat) (st : ICachedReduxState) (fs : FS)
    (h : st.nodes = none ∨ ∃ values, st.nodes = some values ∧
      (values.map Prod.fst).Nodup ∧
      (values = [] ∨ (11 ≤ values.length ∧
        ∀ e ∈ values, 1 ≤ size e ∧ size e ≤ TARGET_BYTES))) :
    roundTrips size st fs := by
  rcases h with hn | ⟨values, hn, hnd, hv⟩
  · refine ⟨0, { nodes := none, rest := st.rest },
      { core := some { nodes := none, rest := st.rest }, chunks := [] },
      fs.chunks.map (fun ch => Event.unlink ch.1)
        ++ [Event.detach, Event.writeCore, Event.reattach],
      { nodes := none, rest := st.rest },
      writeToCache_none_shape size st fs 0 hn,
      readFromCache_no_chunks _ _ rfl rfl, ?_⟩
    rw [hn]; intro k; rfl
  · rcases hv with rfl | ⟨h11, hb⟩
    · refine ⟨0, { nodes := some [], rest := st.rest },
        { core := some { nodes := none, rest := st.rest }, chunks := [] },
        fs.chunks.map (fun ch => Event.unlink ch.1)
          ++ [Event.detach, Event.writeCore, Event.reattach]
          ++ [Event.estimate 0],
        { nodes := none, rest := st.rest },
        writeToCache_empty_shape size st fs 0 hn,
        readFromCache_no_chunks _ _ rfl rfl, ?_⟩
      rw [hn]; intro k; rfl
    · obtain ⟨m, hg, hm1, hmT⟩ := guessSafeChunkSize_spec size values h11
        (fun e he => (hb e he).1) (fun e he => (hb e he).2)
      have hc : 0 < TARGET_BYTES / m := (Nat.one_le_div_iff (by omega)).mpr hmT
      have hE : 0 < values.length := by omega
      have hn1 : 0 < ceilDivNat values.length (TARGET_BYTES / m) :=
        ceilDivNat_pos _ _ hc hE
      have hw := writeToCache_shape size st fs (values.length + 1) values
        (TARGET_BYTES / m) hn hg hc
      have hne2 : ((List.range (ceilDivNat values.length (TARGET_BYTES / m))).map
          (fun i => (i, ((values.drop (i * (TARGET_BYTES / m))).take
            (TARGET_BYTES / m))))) ≠ [] := by
        intro hnil
        have := congrArg List.length hnil
        simp at this
        omega
      have hread := readFromCache_chunks
        { core := some { nodes := none, rest := st.rest },
          chunks := (List.range (ceilDivNat values.length (TARGET_BYTES / m))).map
            (fun i => (i, ((values.drop (i * (TARGET_BYTES / m))).take
              (TARGET_BYTES / m)))) }
        { nodes := none, rest := st.rest } rfl hne2
      refine ⟨values.length + 1, _, _, _, _, hw, hread, ?_⟩
      have hflat : (((List.range (ceilDivNat values.length (TARGET_BYTES / m))).map
          (fun i => (i, ((values.drop (i * (TARGET_BYTES / m))).take
            (TARGET_BYTES / m))))).map (fun ch => ch.2)).flatten = values := by
        rw [List.map_map]
        exact flatten_chunks (TARGET_BYTES / m) hc values.length values le_rfl
      rw [hn]
      intro k
      simp only [hflat, mapFromList_of_nodupKeys values hnd]

/-- Claim C1 (amended, witness): a key-unique 11-entry map whose
entries serialize to half the target each (so the write spans six chunk
files) round-trips. -/
theorem c1_round_trip_witness :
    roundTrips (fun _ => 80530636800)
      { nodes := some ((List.range 11).map (fun i => (i, i))), rest := 7 }
      { core := none, chunks := [(5, [(9, 9)])] } :=
  c1_round_trip _ _ _ (Or.inr ⟨(List.range 11).map (fun i => (i, i)), rfl,
    by decide, Or.inr ⟨by decide, by decide⟩⟩)

/-- Claim C2: the chunk size is indeed `⌊target / maxObservedSize⌋`,
but the target constant in the code is `150 * 1024 * 1024 * 1024`
(150 GiB), not the ~1.5 GiB (`1.5 * 2^30 = 1610612736`) that the claim
and the code's own comment ("Use 1.5gb as the target ceiling, allowing
for some margin of error" against a 2 GB buffer limit) describe: on
eleven entries of 1024 serialized bytes each the code returns
`157286400`, one hundred times the intended `1572864`. -/
theorem c2_target_constant_is_150_gib :
    TARGET_BYTES = 161061273600 ∧
    guessSafeChunkSize (fun _ => 1024) ((List.range 11).map (fun i => (i, 0))) 12
      = some (JsNum.fin 157286400) ∧
    157286400 = TARGET_BYTES / 1024 ∧
    157286400 ≠ 1610612736 / 1024 := by
  refine ⟨by decide, by decide, by decide, by decide⟩

/-- Claim C3: the stride `Math.floor(valueCount / 11)` is NOT clamped:
for a five-entry sequence it is `0`, the loop index never advances, and
the estimator never returns (formally: it returns `none` for every
fuel), contradicting the claimed termination with at least one sample. -/
theorem c3_estimator_never_returns_on_five_entries :
    ∀ fuel, guessSafeChunkSize (fun _ => 1)
      [(0, 0), (1, 1), (2, 2), (3, 3), (4, 4)] fuel = none :=
  fun fuel => guessSafeChunkSize_diverges (fun _ => 1) _ (by decide) (by decide) fuel

/-- Claim C4 (counterexample): on a concrete 11-record state the write
trace is detach, write-core, reattach, estimate, write-chunk — the
reattach (`contents.nodes = map`) happens BEFORE the chunk files are
written, not after, so the claimed detach → write-core → write-chunks →
reattach order is violated. -/
theorem c4_reattach_precedes_chunk_writes :
    writeToCache (fun _ => 1024)
        { nodes := some ((List.range 11).map (fun i => (i, 0))), rest := 0 }
        { core := none, chunks := [] } 12
      = some ({ nodes := some ((List.range 11).map (fun i => (i, 0))), rest := 0 },
          { core := some { nodes := none, rest := 0 },
            chunks := [(0, (List.range 11).map (fun i => (i, 0)))] },
          [Event.detach, Event.writeCore, Event.reattach, Event.estimate 11,
            Event.writeChunk 0]) ∧
    ¬ chunkWritesPrecedeReattach
        [Event.detach, Event.writeCore, Event.reattach, Event.estimate 11,
          Event.writeChunk 0] := by
  refine ⟨by decide, by decide⟩

/-- Claim C4 (amended): every terminating write's trace decomposes as
stale-chunk unlinks, then detach, then write-core, then reattach, and
only then the estimate and the chunk-file writes. -/
theorem c4_write_event_order (size : Entry → Nat) (st : ICachedReduxState)
    (fs : FS) (fuel : Nat) (st2 : ICachedReduxState) (fs2 : FS) (tr : List Event)
    (h : writeToCache size st fs fuel = some (st2, fs2, tr)) :
    ∃ pre post,
      tr = pre ++ [Event.detach, Event.writeCore, Event.reattach] ++ post ∧
      (∀ e ∈ pre, ∃ n, e = Event.unlink n) ∧
      (∀ e ∈ post, (∃ n, e = Event.estimate n) ∨ (∃ n, e = Event.writeChunk n)) := by
  cases hn : st.nodes with
  | none =>
      rw [writeToCache_none_shape size st fs fuel hn] at h
      simp only [Option.some.injEq, Prod.mk.injEq] at h
      obtain ⟨-, -, htr⟩ := h
      refine ⟨fs.chunks.map (fun ch => Event.unlink ch.1), [], ?_, ?_, by simp⟩
      · rw [← htr]; simp
      · intro e he
        obtain ⟨ch, -, rfl⟩ := List.mem_map.mp he
        exact ⟨ch.1, rfl⟩
  | some mv =>
      cases hg : guessSafeChunkSize size mv fuel with
      | none =>
          simp only [writeToCache, hn, hg] at h
          exact Option.noConfusion h
      | some cs =>
          cases hcc : jsChunkCount mv.length cs with
          | none =>
              simp only [writeToCache, hn, hg, hcc] at h
              exact Option.noConfusion h
          | some n =>
              simp only [writeToCache, hn, hg, hcc, Option.some.injEq,
                Prod.mk.injEq] at h
              obtain ⟨-, -, htr⟩ := h
              refine ⟨fs.chunks.map (fun ch => Event.unlink ch.1),
                Event.estimate mv.length :: (List.range n).map Event.writeChunk,
                ?_, ?_, ?_⟩
              · rw [← htr]; simp
              · intro e he
                obtain ⟨ch, -, rfl⟩ := List.mem_map.mp he
                exact ⟨ch.1, rfl⟩
              · intro e he
                rcases List.mem_cons.mp he with rfl | he2
                · exact Or.inl ⟨mv.length, rfl⟩
                · obtain ⟨i, -, rfl⟩ := List.mem_map.mp he2
                  exact Or.inr ⟨i, rfl⟩

/-- Claim C4 (amended, witness): the order holds on a concrete write. -/
theorem c4_write_event_order_witness :
    ∃ pre post,
      [Event.unlink 3, Event.detach, Event.writeCore, Event.reattach,
        Event.estimate 11, Event.writeChunk 0]
        = pre ++ [Event.detach, Event.writeCore, Event.reattach] ++ post ∧
      (∀ e ∈ pre, ∃ n, e = Event.unlink n) ∧
      (∀ e ∈ post, (∃ n, e = Event.estimate n) ∨ (∃ n, e = Event.writeChunk n)) :=
  c4_write_event_order (fun _ => 1024)
    { nodes := some ((List.range 11).map (fun i => (i, 0))), rest := 0 }
    { core := none, chunks := [(3, [(7, 7)])] } 12
    { nodes := some ((List.range 11).map (fun i => (i, 0))), rest := 0 }
    { core := some { nodes := none, rest := 0 },
      chunks := [(0, (List.range 11).map (fun i => (i, 0)))] }
    [Event.unlink 3, Event.detach, Event.writeCore, Event.reattach,
      Event.estimate 11, Event.writeChunk 0]
    (by decide)

/-- Claim C5: whenever `writeToCache` returns, the caller's object has
its original `nodes` map (and `rest`) back, while the core file on disk
was written with `nodes` absent. -/
theorem c5_write_preserves_caller_nodes (size : Entry → Nat)
    (st : ICachedReduxState) (fs : FS) (fuel : Nat) (st2 : ICachedReduxState)
    (fs2 : FS) (tr : List Event)
    (h : writeToCache size st fs fuel = some (st2, fs2, tr)) :
    st2.nodes = st.nodes ∧ st2.rest = st.rest ∧
    fs2.core = some { nodes := none, rest := st.rest } := by
  cases hn : st.nodes with
  | none =>
      rw [writeToCache_none_shape size st fs fuel hn] at h
      simp only [Option.some.injEq, Prod.mk.injEq] at h
      obtain ⟨h1, h2, -⟩ := h
      rw [← h1, ← h2]
      exact ⟨rfl, rfl, rfl⟩
  | some mv =>
      cases hg : guessSafeChunkSize size mv fuel with
      | none =>
          simp only [writeToCache, hn, hg] at h
          exact Option.noConfusion h
      | some cs =>
          cases hcc : jsChunkCount mv.length cs with
          | none =>
              simp only [writeToCache, hn, hg, hcc] at h
              exact Option.noConfusion h
          | some n =>
              simp only [writeToCache, hn, hg, hcc, Option.some.injEq,
                Prod.mk.injEq] at h
              obtain ⟨h1, h2, -⟩ := h
              rw [← h1, ← h2]
              exact ⟨rfl, rfl, rfl⟩

/-- Claim C5 (witness): on a concrete write the caller's map survives. -/
theorem c5_write_preserves_caller_nodes_witness :
    ({ nodes := some ((List.range 11).map (fun i => (i, 1))), rest := 5 }
        : ICachedReduxState).nodes
      = ({ nodes := some ((List.range 11).map (fun i => (i, 1))), rest := 5 }
        : ICachedReduxState).nodes ∧
    ({ nodes := some ((List.range 11).map (fun i => (i, 1))), rest := 5 }
        : ICachedReduxState).rest
      = ({ nodes := some ((List.range 11).map (fun i => (i, 1))), rest := 5 }
        : ICachedReduxState).rest ∧
    ({ core := some { nodes := none, rest := 5 },
       chunks := [(0, (List.range 11).map (fun i => (i, 1)))] } : FS).core
      = some { nodes := none, rest := 5 } :=
  c5_write_preserves_caller_nodes (fun _ => 1024)
    { nodes := some ((List.range 11).map (fun i => (i, 1))), rest := 5 }
    { core := none, chunks := [] } 12
    { nodes := some ((List.range 11).map (fun i => (i, 1))), rest := 5 }
    { core := some { nodes := none, rest := 5 },
      chunks := [(0, (List.range 11).map (fun i => (i, 1)))] }
    [Event.detach, Event.writeCore, Event.reattach, Event.estimate 11,
      Event.writeChunk 0]
    (by decide)

/-- Mapping each chunk index to the pair `(index, contents)` and back
to the index is the identity on the index list. -/
theorem map_fst_enum (f : Nat → List Entry) (n : Nat) :
    ((List.range n).map (fun i => (i, f i))).map Prod.fst = List.range n := by
  rw [List.map_map]
  have h : (Prod.fst ∘ fun i => (i, f i)) = fun i => i := rfl
  rw [h]
  exact List.map_id (List.range n)

/-- Claim C6: after a second write to the same directory, the chunk
files on disk are exactly those of the second write — indices
`0 .. ceil(N2 / chunkSize) - 1` — because `writeToCache` first unlinks
every file matching the chunk prefix; nothing of the first (larger)
generation survives. -/
theorem c6_second_write_owns_chunks (size : Entry → Nat)
    (st1 st2 : ICachedReduxState) (fs0 fs1 fs2 : FS)
    (st1' st2' : ICachedReduxState) (tr1 tr2 : List Event)
    (fuel1 fuel2 : Nat) (values1 values2 : List Entry) (c : Nat)
    (hn1 : st1.nodes = some values1)
    (h1 : writeToCache size st1 fs0 fuel1 = some (st1', fs1, tr1))
    (hn2 : st2.nodes = some values2)
    (hlt : values2.length < values1.length)
    (hg2 : guessSafeChunkSize size values2 fuel2 = some (JsNum.fin c))
    (hc : 0 < c)
    (h2 : writeToCache size st2 fs1 fuel2 = some (st2', fs2, tr2)) :
    fs2.chunks.length = ceilDivNat values2.length c ∧
    fs2.chunks.map Prod.fst = List.range (ceilDivNat values2.length c) := by
  rw [writeToCache_shape size st2 fs1 fuel2 values2 c hn2 hg2 hc] at h2
  simp only [Option.some.injEq, Prod.mk.injEq] at h2
  obtain ⟨-, h2f, -⟩ := h2
  rw [← h2f]
  constructor
  · simp
  · exact map_fst_enum _ _

/-- Claim C6 (witness): writing 12 records then 11 records leaves
exactly the second generation's single chunk. -/
theorem c6_second_write_owns_chunks_witness :
    ({ core := some { nodes := none, rest := 0 },
       chunks := [(0, (List.range 11).map (fun i => (i, 0)))] } : FS).chunks.length
      = ceilDivNat 11 157286400 ∧
    ({ core := some { nodes := none, rest := 0 },
       chunks := [(0, (List.range 11).map (fun i => (i, 0)))] } : FS).chunks.map Prod.fst
      = List.range (ceilDivNat 11 157286400) :=
  c6_second_write_owns_chunks (fun _ => 1024)
    { nodes := some ((List.range 12).map (fun i => (i, 0))), rest := 0 }
    { nodes := some ((List.range 11).map (fun i => (i, 0))), rest := 0 }
    { core := none, chunks := [] }
    { core := some { nodes := none, rest := 0 },
      chunks := [(0, (List.range 12).map (fun i => (i, 0)))] }
    { core := some { nodes := none, rest := 0 },
      chunks := [(0, (List.range 11).map (fun i => (i, 0)))] }
    { nodes := some ((List.range 12).map (fun i => (i, 0))), rest := 0 }
    { nodes := some ((List.range 11).map (fun i => (i, 0))), rest := 0 }
    [Event.detach, Event.writeCore, Event.reattach, Event.estimate 12,
      Event.writeChunk 0]
    [Event.unlink 0, Event.detach, Event.writeCore, Event.reattach,
      Event.estimate 11, Event.writeChunk 0]
    13 12
    ((List.range 12).map (fun i => (i, 0)))
    ((List.range 11).map (fun i => (i, 0)))
    157286400
    rfl (by decide) rfl (by decide) (by decide) (by decide) (by decide)

/-- Claim C7: a completed write with entry count `E` and estimated
chunk size `c` produces exactly `ceil(E / c)` chunk files, indexed by
the contiguous 0-based suffixes `0 .. ceil(E / c) - 1`, each holding at
most `c` entries (the last may hold fewer). -/
theorem c7_chunk_count_and_bound (size : Entry → Nat)
    (st : ICachedReduxState) (fs : FS) (fuel : Nat)
    (st2 : ICachedReduxState) (fs2 : FS) (tr : List Event)
    (values : List Entry) (c : Nat)
    (hn : st.nodes = some values)
    (hg : guessSafeChunkSize size values fuel = some (JsNum.fin c))
    (hc : 0 < c)
    (h : writeToCache size st fs fuel = some (st2, fs2, tr)) :
    fs2.chunks.length = ceilDivNat values.length c ∧
    fs2.chunks.map Prod.fst = List.range (ceilDivNat values.length c) ∧
    ∀ ch ∈ fs2.chunks, ch.2.length ≤ c := by
  rw [writeToCache_shape size st fs fuel values c hn hg hc] at h
  simp only [Option.some.injEq, Prod.mk.injEq] at h
  obtain ⟨-, hf, -⟩ := h
  rw [← hf]
  refine ⟨by simp, map_fst_enum _ _, ?_⟩
  intro ch hch
  obtain ⟨i, -, rfl⟩ := List.mem_map.mp hch
  show (List.take c (List.drop (i * c) values)).length ≤ c
  rw [List.length_take]
  omega

/-- Claim C7 (witness): 11 entries at an estimated chunk size of 2
yield six chunk files of at most two entries each. -/
theorem c7_chunk_count_and_bound_witness :
    chunkedSixFS.chunks.length = ceilDivNat 11 2 ∧
    chunkedSixFS.chunks.map Prod.fst = List.range (ceilDivNat 11 2) ∧
    ∀ ch ∈ chunkedSixFS.chunks, ch.2.length ≤ 2 :=
  c7_chunk_count_and_bound (fun _ => 80530636800)
    { nodes := some ((List.range 11).map (fun j => (j, j))), rest := 0 }
    { core := none, chunks := [] } 12
    { nodes := some ((List.range 11).map (fun j => (j, j))), rest := 0 }
    chunkedSixFS
    [Event.detach, Event.writeCore, Event.reattach, Event.estimate 11,
      Event.writeChunk 0, Event.writeChunk 1, Event.writeChunk 2,
      Event.writeChunk 3, Event.writeChunk 4, Event.writeChunk 5]
    ((List.range 11).map (fun j => (j, j))) 2
    rfl (by decide) (by decide) (by decide)

/-- Claim C8 (counterexample): `if (map)` is truthy for an EMPTY Map,
so on a state whose `records` is present but empty the estimator IS
invoked with zero entries (the `estimate 0` event occurs), reaching the
`TARGET_BYTES / maxSize` division with a zero maximum; zero chunk files
are still written because `E / Infinity = 0`. -/
theorem c8_estimator_invoked_on_empty_map :
    writeToCache (fun _ => 1) { nodes := some [], rest := 0 }
        { core := none, chunks := [] } 0
      = some ({ nodes := some [], rest := 0 },
          { core := some { nodes := none, rest := 0 }, chunks := [] },
          [Event.detach, Event.writeCore, Event.reattach, Event.estimate 0]) ∧
    Event.estimate 0
      ∈ [Event.detach, Event.writeCore, Event.reattach, Event.estimate 0] := by
  refine ⟨by decide, by decide⟩

/-- Claim C8 (amended): with `records` absent or empty the write
terminates and writes zero chunk files; when `records` is absent the
estimator is never invoked, but when it is present-and-empty the
estimator is invoked with zero entries (its division by the zero
maximum yields no finite bound, and still no chunk is written). -/
theorem c8_empty_or_absent_writes_no_chunks (size : Entry → Nat)
    (st : ICachedReduxState) (fs : FS) (fuel : Nat)
    (h : st.nodes = none ∨ st.nodes = some []) :
    ∃ st2 fs2 tr, writeToCache size st fs fuel = some (st2, fs2, tr) ∧
      fs2.chunks = [] ∧
      (st.nodes = none → ∀ n, Event.estimate n ∉ tr) := by
  rcases h with hn | hn
  · refine ⟨_, _, _, writeToCache_none_shape size st fs fuel hn, rfl, ?_⟩
    intro _ n hmem
    rcases List.mem_append.mp hmem with hm | hm
    · obtain ⟨ch, -, heq⟩ := List.mem_map.mp hm
      exact Event.noConfusion heq
    · simp at hm
  · refine ⟨_, _, _, writeToCache_empty_shape size st fs fuel hn, rfl, ?_⟩
    intro hcontra
    exact absurd (hn.symm.trans hcontra) (by simp)

/-- Claim C8 (amended, witness): a write with `records` absent cleans
the old chunks, writes none, and never makes an estimate. -/
theorem c8_empty_or_absent_writes_no_chunks_witness :
    ∃ st2 fs2 tr,
      writeToCache (fun _ => 1) { nodes := none, rest := 3 }
          { core := none, chunks := [(1, [(2, 2)])] } 5
        = some (st2, fs2, tr) ∧
      fs2.chunks = [] ∧
      (({ nodes := none, rest := 3 } : ICachedReduxState).nodes = none →
        ∀ n, Event.estimate n ∉ tr) :=
  c8_empty_or_absent_writes_no_chunks (fun _ => 1)
    { nodes := none, rest := 3 } { core := none, chunks := [(1, [(2, 2)])] } 5
    (Or.inl rfl)

/-- Claim C9: if no chunk file is on disk the reader returns the state
exactly as the core file encoded it (never overwriting `nodes` with an
empty map); and when chunk files exist, duplicate keys in the flattened
entries do not make the merge fail — the later entry for a duplicate
key wins in the rebuilt mapping. -/
theorem c9_read_no_chunks_and_later_wins (fs : FS) (obj : ICachedReduxState)
    (hc : fs.core = some obj) :
    (fs.chunks = [] → readFromCache fs = some obj) ∧
    (∀ rd, readFromCache fs = some rd → fs.chunks ≠ [] →
      ∀ pre k v post,
        (fs.chunks.map (fun ch => ch.2)).flatten = pre ++ (k, v) :: post →
        (∀ q ∈ post, q.1 ≠ k) →
        mlookup (rd.nodes.getD []) k = some v) := by
  constructor
  · intro hch
    exact readFromCache_no_chunks fs obj hc hch
  · intro rd hrd hne pre k v post hflat hpost
    rw [readFromCache_chunks fs obj hc hne, Option.some_inj] at hrd
    rw [← hrd]
    show mlookup (mapFromList ((fs.chunks.map (fun ch => ch.2)).flatten)) k = some v
    rw [hflat]
    exact mlookup_mapFromList_later pre post k v hpost

/-- Claim C9 (witness): two chunk files with a duplicate key `1`; the
later entry `(1, 30)` wins in the rebuilt mapping. -/
theorem c9_read_no_chunks_and_later_wins_witness :
    readFromCache dupChunksFS
      = some { nodes := some [(1, 30), (2, 20)], rest := 0 } ∧
    mlookup [(1, 30), (2, 20)] 1 = some 30 := by
  refine ⟨by decide, ?_⟩
  exact (c9_read_no_chunks_and_later_wins dupChunksFS
      { nodes := none, rest := 0 } rfl).2
    { nodes := some [(1, 30), (2, 20)], rest := 0 } (by decide) (by decide)
    [(1, 10), (2, 20)] 1 30 [] (by decide) (by decide)

/-- A slice `values.slice(i * c, i * c + c)` addressed by a valid chunk
index is never empty. -/
theorem slice_nonempty (l : List Entry) (c i : Nat) (hc : 0 < c)
    (hi : i < ceilDivNat l.length c) : (l.drop (i * c)).take c ≠ [] := by
  have hlt := mul_lt_of_lt_ceilDivNat i l.length c hc hi
  intro hnil
  have hlen := congrArg List.length hnil
  rw [List.length_take, List.length_drop] at hlen
  simp only [List.length_nil] at hlen
  omega

/-- Claim C10 (counterexample): the computed chunk size is NOT always
positive on a non-empty `records` map — eleven entries each serializing
to `TARGET_BYTES + 1` bytes give `⌊TARGET_BYTES / (TARGET_BYTES + 1)⌋ =
0`, upon which the write loop (`chunks = ceil(11 / 0) = Infinity`)
diverges instead of producing chunk files. -/
theorem c10_huge_entries_give_zero_chunk_size :
    guessSafeChunkSize (fun _ => TARGET_BYTES + 1)
        ((List.range 11).map (fun i => (i, 0))) 12
      = some (JsNum.fin 0) ∧
    writeToCache (fun _ => TARGET_BYTES + 1)
        { nodes := some ((List.range 11).map (fun i => (i, 0))), rest := 0 }
        { core := none, chunks := [] } 12
      = none := by
  refine ⟨by decide, by decide⟩

/-- Claim C10 (amended): for a `records` map of at least 11 entries
whose serialized sizes lie in `[1, TARGET_BYTES]`, the computed chunk
size is a positive integer and every chunk file written holds at least
one entry. -/
theorem c10_positive_chunk_size_and_nonempty_chunks (size : Entry → Nat)
    (st : ICachedReduxState) (fs : FS) (values : List Entry)
    (hn : st.nodes = some values) (h11 : 11 ≤ values.length)
    (hb : ∀ e ∈ values, 1 ≤ size e ∧ size e ≤ TARGET_BYTES) :
    ∃ fuel st2 fs2 tr c,
      writeToCache size st fs fuel = some (st2, fs2, tr) ∧
      guessSafeChunkSize size values fuel = some (JsNum.fin c) ∧
      1 ≤ c ∧
      ∀ ch ∈ fs2.chunks, ch.2 ≠ [] := by
  obtain ⟨m, hg, hm1, hmT⟩ := guessSafeChunkSize_spec size values h11
    (fun e he => (hb e he).1) (fun e he => (hb e he).2)
  have hc : 0 < TARGET_BYTES / m := (Nat.one_le_div_iff (by omega)).mpr hmT
  have hw := writeToCache_shape size st fs (values.length + 1) values
    (TARGET_BYTES / m) hn hg hc
  refine ⟨values.length + 1, _, _, _, TARGET_BYTES / m, hw, hg, hc, ?_⟩
  intro ch hch
  obtain ⟨i, hi, rfl⟩ := List.mem_map.mp hch
  exact slice_nonempty values _ i hc (List.mem_range.mp hi)

/-- Claim C10 (amended, witness): eleven kilobyte-sized entries give a
positive chunk size and non-empty chunks. -/
theorem c10_positive_chunk_size_witness :
    ∃ fuel st2 fs2 tr c,
      writeToCache (fun _ => 1024)
          { nodes := some ((List.range 11).map (fun i => (i, 2))), rest := 1 }
          { core := none, chunks := [] } fuel
        = some (st2, fs2, tr) ∧
      guessSafeChunkSize (fun _ => 1024)
          ((List.range 11).map (fun i => (i, 2))) fuel
        = some (JsNum.fin c) ∧
      1 ≤ c ∧
      ∀ ch ∈ fs2.chunks, ch.2 ≠ [] :=
  c10_positive_chunk_size_and_nonempty_chunks (fun _ => 1024)
    { nodes := some ((List.range 11).map (fun i => (i, 2))), rest := 1 }
    { core := none, chunks := [] }
    ((List.range 11).map (fun i => (i, 2)))
    rfl (by decide) (by decide)

end Persist
